import Mathlib

/-!
# Verification of the crypto-liquidity dashboard core

Shallow embedding of the market-snapshot / flow-classifier core of
`crypto_liquidity_dashboard.py`.  Python floats are modelled as exact
rationals (`ℚ`); Python `None` is modelled as `Option.none`; Python
truthiness of a float (`if x:`) is modelled as `x ≠ 0`.
-/

namespace CryptoLiquidity

/-- The classifier's output: the Python function returns a triple
`(label, color, note)` of strings. -/
structure Verdict where
  label : String
  color : String
  note : String
deriving DecidableEq, Repr

/-- The constant `tol = 5e6`, the fixed $5M noise tolerance hard-coded in `decide_flow`. -/
def tol : ℚ := 5000000

/-- Python's `max(list, key=lambda x: x[1])` over a non-empty list:
fold keeping the current best, replacing it only on a strictly greater
key, so the first maximal element wins. -/
def maxByVal (head : String × ℚ) (rest : List (String × ℚ)) : String × ℚ :=
  rest.foldl (fun best x => if x.2 > best.2 then x else best) head

/-- The leader computation of the inflow branch of `decide_flow`:
`max([("BTC", d_btc), ("ETH", d_eth), ("Alts", d_alt), ("Stables", d_stable)],
key=lambda x: x[1])[0]`. -/
def leaderOf (d_btc d_eth d_stable d_alt : ℚ) : String :=
  (maxByVal ("BTC", d_btc) [("ETH", d_eth), ("Alts", d_alt), ("Stables", d_stable)]).1

/-- The `Unknown` / insufficient-data verdict (line 134 of the source). -/
def unknownVerdict : Verdict :=
  ⟨"داده کافی نیست", "gray", "دیتای یکی از بخش‌ها ناقص است."⟩

/-- The qualified mixed-signal inflow verdict emitted when the inflow
leader is the stablecoin bucket (line 145). -/
def stablesInflowVerdict : Verdict :=
  ⟨"ورود نقدینگی + تمرکز روی استیبل؟", "orange", "کل بازار مثبت اما استیبل‌ها نیز در حال رشدند."⟩

/-- The Positive inflow verdict naming the leading bucket (line 146). -/
def inflowLeaderVerdict (leader : String) : Verdict :=
  ⟨"ورود نقدینگی → تمرکز بر " ++ leader, "green", "رشد خالص سرمایه در بازار مشاهده می‌شود."⟩

/-- Outflow with flight to stablecoins (line 149). -/
def flightToStablesVerdict : Verdict :=
  ⟨"خروج نقدینگی → پناه به استیبل‌کوین‌ها", "red", "سرمایه از کریپتو خارج و به استیبل منتقل می‌شود."⟩

/-- Generic outflow verdict (line 150). -/
def outflowVerdict : Verdict :=
  ⟨"خروج نقدینگی از کل بازار", "red", "کاهش خالص سرمایه در بازار."⟩

/-- Rotation: alts → BTC (line 155). -/
def altsToBtcVerdict : Verdict :=
  ⟨"چرخش از آلت‌ها به بیت‌کوین", "orange", "پول از آلت‌ها به BTC می‌چرخد."⟩

/-- Rotation: BTC → alts (line 157). -/
def btcToAltsVerdict : Verdict :=
  ⟨"چرخش از بیت‌کوین به آلت‌ها", "orange", "پول از BTC به آلت‌ها می‌چرخد."⟩

/-- Relative concentration in ETH (line 159). -/
def ethRotationVerdict : Verdict :=
  ⟨"تمرکز نسبی روی اتریوم", "orange", "ETH نسبت به بقیه قوی‌تر است."⟩

/-- Indecision / short-term flight to stablecoins (line 161). -/
def indecisionVerdict : Verdict :=
  ⟨"بی‌تصمیمی بازار / پناه کوتاه‌مدت به استیبل", "gray", "رشد استیبل‌ها بدون رشد بخش‌های ریسکی."⟩

/-- Neutral / no significant change (line 162). -/
def neutralVerdict : Verdict :=
  ⟨"خنثی", "gray", "تغییر معناداری دیده نمی‌شود."⟩

/-- The inflow branch of `decide_flow` (`d_total > tol`, lines 139-146). -/
def inflowBranch (d_btc d_eth d_stable d_alt : ℚ) : Verdict :=
  let leader := leaderOf d_btc d_eth d_stable d_alt
  if leader = "Stables" then stablesInflowVerdict
  else inflowLeaderVerdict leader

/-- The rotation rules of `decide_flow` (lines 154-162), reached when the
four bucket deltas are all non-null and `d_total` is null or within the
tolerance band.  Note the strict `<` in the ETH rule and the indecision
rule, exactly as in the source. -/
def rotationRules (d_btc d_eth d_stable d_alt : ℚ) : Verdict :=
  if d_btc > tol ∧ d_alt < -tol then altsToBtcVerdict
  else if d_alt > tol ∧ d_btc < -tol then btcToAltsVerdict
  else if d_eth > tol ∧ d_btc < tol ∧ d_alt < tol then ethRotationVerdict
  else if d_stable > tol ∧ max d_btc (max d_eth d_alt) < tol then indecisionVerdict
  else neutralVerdict

/-- Embedding of `decide_flow(d_total, d_btc, d_eth, d_stable, d_alt)` (lines 131-162):
first the null check over the four bucket deltas, then the total-based
decision when `d_total` is available, then the rotation rules. -/
def decide_flow (d_total d_btc d_eth d_stable d_alt : Option ℚ) : Verdict :=
  match d_btc, d_eth, d_stable, d_alt with
  | some b, some e, some s, some a =>
    match d_total with
    | some t =>
      if t > tol then inflowBranch b e s a
      else if t < -tol then
        if s > tol then flightToStablesVerdict else outflowVerdict
      else rotationRules b e s a
    | none => rotationRules b e s a
  | _, _, _, _ => unknownVerdict

/-! ## Historical lookup (`get_market_caps_history`, lines 99-119)

The network fetch is out of scope; the algorithmic content is the
back-scan over the time-ordered `market_caps` list of
`(timestamp_ms, cap)` samples against the cutoff `target_ms`. -/

/-- The scan loop of `get_market_caps_history`:
`for ts, val in caps: if ts <= target_ms: prev = (ts, val) else: break`.
`prev` is the accumulator, initially `None`. -/
def histScan (target : ℤ) : List (ℤ × ℚ) → Option (ℤ × ℚ) → Option (ℤ × ℚ)
  | [], prev => prev
  | (ts, val) :: rest, prev =>
    if ts ≤ target then histScan target rest (some (ts, val)) else prev

/-- Function `get_market_caps_history` restricted to its pure core: given the
sample series `caps` and the cutoff `target` (= `now − minutes_back` in
ms), return the result of the back-scan; the empty-series early return
(`if not caps: return None`) coincides with the scan's initial `None`. -/
def get_market_caps_history (caps : List (ℤ × ℚ)) (target : ℤ) : Option (ℤ × ℚ) :=
  match caps with
  | [] => none
  | _ => histScan target caps none

/-! ## Snapshot builder pieces used by `analyze` (lines 165-219) -/

/-- The stablecoin-basket previous-value loop of `analyze`
(lines 192-198): for each basket member's history result `pv`, if it is
available add it to the running sum and set `have_any_stable_prev`. -/
def stablePrevLoop : List (Option ℚ) → ℚ → Bool → ℚ × Bool
  | [], acc, flag => (acc, flag)
  | none :: rest, acc, flag => stablePrevLoop rest acc flag
  | some v :: rest, acc, _ => stablePrevLoop rest (acc + v) true

/-- Value `stable_prev` (line 199): the partial basket sum if any member's
history was available, else `None`. -/
def stable_prev (hist : List (Option ℚ)) : Option ℚ :=
  let r := stablePrevLoop hist 0 false
  if r.2 then some r.1 else none

/-- Delta `d_stable` (line 204):
`(stable_now - stable_prev) if (stable_now and stable_prev is not None) else None`. -/
def compute_d_stable (stable_now : ℚ) (hist : List (Option ℚ)) : Option ℚ :=
  match stable_prev hist with
  | some p => if stable_now ≠ 0 then some (stable_now - p) else none
  | none => none

/-- Embedding of `np.clip(x, lo, hi) = min(max(x, lo), hi)`. -/
def clip (x lo hi : ℚ) : ℚ := min (max x lo) hi

/-- The raw ETH-share-in-alts estimate (line 208):
`(eth_now / alt_now) if (alt_now and eth_now) else 0.35`; a zero (falsy)
cap in either position selects the 0.35 default. -/
def eth_share_raw (alt_now eth_now : ℚ) : ℚ :=
  if alt_now ≠ 0 ∧ eth_now ≠ 0 then eth_now / alt_now else 35/100

/-- The clamped ETH share (line 209): `np.clip(share, 0.15, 0.65)`. -/
def eth_share_in_alts (alt_now eth_now : ℚ) : ℚ :=
  clip (eth_share_raw alt_now eth_now) (15/100) (65/100)

/-- Operation `estimate_alt_delta` with an explicit pre-clamp share argument: the
spec's named operation for lines 209-210, `d_eth / clip(share, 0.15, 0.65)`
when `d_eth` is non-null, else null. -/
def estimate_alt_delta (d_eth : Option ℚ) (share : ℚ) : Option ℚ :=
  match d_eth with
  | some de => some (de / clip share (15/100) (65/100))
  | none => none

/-- Delta `d_alt` as computed by `analyze` (lines 208-210): the share comes
from the current caps, then `d_alt = d_eth / share` with nullability
propagated from `d_eth`. -/
def compute_d_alt (d_eth : Option ℚ) (alt_now eth_now : ℚ) : Option ℚ :=
  estimate_alt_delta d_eth (eth_share_raw alt_now eth_now)

/-- Operation `compute_total_delta` (lines 212-215): `d_total = d_btc + d_stable + d_alt`
when all three parts are non-null, else `None`. -/
def compute_total_delta (d_btc d_stable d_alt : Option ℚ) : Option ℚ :=
  match d_btc, d_stable, d_alt with
  | some b, some s, some a => some (b + s + a)
  | _, _, _ => none

/-- The four dominance figures assembled by `analyze`
(lines 172-173 and 217-219), as functions of the global-endpoint
dominances (`btc_dom`, `eth_dom`, nullable), the current total cap and
the current stable-basket cap:
`btc_dom_now = float(btc_dom or 0.0)`, `eth_dom_now = float(eth_dom or 0.0)`,
`stable_dom_now = stable_now / total_now * 100 if total_now else None`,
`alt_dom_now = 100.0 - (btc_dom_now or 0.0) - (stable_dom_now or 0.0)`. -/
def analyze_doms (total_now : ℚ) (btc_dom_raw eth_dom_raw : Option ℚ)
    (stable_now : ℚ) : ℚ × ℚ × Option ℚ × ℚ :=
  let btc_dom_now := btc_dom_raw.getD 0
  let eth_dom_now := eth_dom_raw.getD 0
  let stable_dom_now : Option ℚ :=
    if total_now ≠ 0 then some (stable_now / total_now * 100) else none
  let alt_dom_now := 100 - btc_dom_now - stable_dom_now.getD 0
  (btc_dom_now, eth_dom_now, stable_dom_now, alt_dom_now)

/-! ## Theorems -/

/-- C1: for every input DeltaSet in which at least one of `d_btc, d_eth,
d_stable, d_alt` is null, `decide_flow` returns the Unknown /
insufficient-data verdict, regardless of `d_total` and of the non-null
fields. -/
theorem C1_null_gives_unknown (d_total d_btc d_eth d_stable d_alt : Option ℚ)
    (h : d_btc = none ∨ d_eth = none ∨ d_stable = none ∨ d_alt = none) :
    decide_flow d_total d_btc d_eth d_stable d_alt = unknownVerdict := by
  cases d_btc <;> cases d_eth <;> cases d_stable <;> cases d_alt <;>
    first
      | rfl
      | simp at h

theorem C1_null_gives_unknown_w :
    decide_flow (some 50000000) none (some 1) (some 2) (some 3) = unknownVerdict :=
  C1_null_gives_unknown (some 50000000) none (some 1) (some 2) (some 3) (Or.inl rfl)

/-- C2: the classifier is a deterministic, total function: for every input
DeltaSet (including null fields in any position) `decide_flow` returns
exactly one verdict — in particular its color is one of the four colors the
source can produce — and equal inputs produce equal outputs. -/
theorem C2_total_deterministic (d_total d_btc d_eth d_stable d_alt : Option ℚ) :
    (∃! v, decide_flow d_total d_btc d_eth d_stable d_alt = v) ∧
    ((decide_flow d_total d_btc d_eth d_stable d_alt).color = "gray" ∨
     (decide_flow d_total d_btc d_eth d_stable d_alt).color = "green" ∨
     (decide_flow d_total d_btc d_eth d_stable d_alt).color = "orange" ∨
     (decide_flow d_total d_btc d_eth d_stable d_alt).color = "red") := by
  refine ⟨⟨_, rfl, fun v h => h.symm⟩, ?_⟩
  cases d_btc <;> cases d_eth <;> cases d_stable <;> cases d_alt <;>
    try (left; rfl)
  cases d_total <;>
    simp only [decide_flow, inflowBranch, rotationRules] <;>
    split_ifs <;>
    simp [unknownVerdict, stablesInflowVerdict,
      inflowLeaderVerdict, flightToStablesVerdict, outflowVerdict, altsToBtcVerdict,
      btcToAltsVerdict, ethRotationVerdict, indecisionVerdict, neutralVerdict]

/-- C8: the ETH-share clamp in the altcoin-delta estimate is enforced: a
share at or below the clamp floor 0.15 yields the same altcoin delta as the
floor itself, a share at or above the ceiling 0.65 yields the same delta as
the ceiling, and the effective divisor always lies in [0.15, 0.65]. -/
theorem C8_clamp_enforced (d_eth : Option ℚ) (s : ℚ) :
    (s ≤ 15/100 → estimate_alt_delta d_eth s = estimate_alt_delta d_eth (15/100)) ∧
    (65/100 ≤ s → estimate_alt_delta d_eth s = estimate_alt_delta d_eth (65/100)) ∧
    (15/100 ≤ clip s (15/100) (65/100) ∧ clip s (15/100) (65/100) ≤ 65/100) := by
  refine ⟨fun hlo => ?_, fun hhi => ?_, le_min (le_max_right _ _) (by norm_num),
    min_le_right _ _⟩
  · have : clip s (15/100) (65/100) = clip (15/100 : ℚ) (15/100) (65/100) := by
      unfold clip
      rw [max_eq_right hlo, max_eq_right le_rfl]
    cases d_eth <;> simp [estimate_alt_delta, this]
  · have : clip s (15/100) (65/100) = clip (65/100 : ℚ) (15/100) (65/100) := by
      unfold clip
      rw [max_eq_left (by linarith), max_eq_left (by norm_num),
        min_eq_right hhi, min_eq_right le_rfl]
    cases d_eth <;> simp [estimate_alt_delta, this]

theorem C8_clamp_enforced_w :
    estimate_alt_delta (some 1) (1/10) = estimate_alt_delta (some 1) (15/100) ∧
    estimate_alt_delta (some 1) (9/10) = estimate_alt_delta (some 1) (65/100) :=
  ⟨(C8_clamp_enforced (some 1) (1/10)).1 (by norm_num),
   (C8_clamp_enforced (some 1) (9/10)).2.1 (by norm_num)⟩

/-- C9: the total delta is the exact sum of its parts and propagates
nullability: `compute_total_delta` returns `d_btc + d_stable + d_alt` when
all three are non-null, and null whenever any of them is null. -/
theorem C9_total_is_sum_of_parts (d_btc d_stable d_alt : Option ℚ) :
    (∀ b s a, d_btc = some b → d_stable = some s → d_alt = some a →
      compute_total_delta d_btc d_stable d_alt = some (b + s + a)) ∧
    ((d_btc = none ∨ d_stable = none ∨ d_alt = none) →
      compute_total_delta d_btc d_stable d_alt = none) := by
  constructor
  · rintro b s a rfl rfl rfl
    rfl
  · rintro (rfl | rfl | rfl)
    · cases d_stable <;> cases d_alt <;> rfl
    · cases d_btc <;> cases d_alt <;> rfl
    · cases d_btc <;> cases d_stable <;> rfl

theorem C9_total_is_sum_of_parts_w :
    compute_total_delta (some 1) (some 2) (some 3) = some (1 + 2 + 3) ∧
    compute_total_delta (some 1) none (some 3) = none :=
  ⟨(C9_total_is_sum_of_parts (some 1) (some 2) (some 3)).1 1 2 3 rfl rfl rfl,
   (C9_total_is_sum_of_parts (some 1) none (some 3)).2 (Or.inr (Or.inl rfl))⟩

/-- C10 (implicit): the altcoin-delta division is always guarded — when the
current altcoin residual cap or the current ETH cap is zero, the raw
ETH-share silently defaults to 0.35 before clamping; the clamped divisor is
never zero (it is at least 0.15); and `d_alt` is non-null exactly when
`d_eth` is non-null. -/
theorem C10_division_guarded (d_eth : Option ℚ) (alt_now eth_now : ℚ) :
    ((alt_now = 0 ∨ eth_now = 0) → eth_share_raw alt_now eth_now = 35/100) ∧
    (15/100 ≤ eth_share_in_alts alt_now eth_now ∧
      eth_share_in_alts alt_now eth_now ≠ 0) ∧
    ((compute_d_alt d_eth alt_now eth_now).isSome ↔ d_eth.isSome) := by
  have hge : 15/100 ≤ eth_share_in_alts alt_now eth_now :=
    le_min (le_max_right _ _) (by norm_num)
  refine ⟨fun h => ?_, ⟨hge, by intro h0; rw [h0] at hge; norm_num at hge⟩, ?_⟩
  · unfold eth_share_raw
    rcases h with h | h <;> simp [h]
  · cases d_eth <;> simp [compute_d_alt, estimate_alt_delta]

theorem C10_division_guarded_w :
    eth_share_raw 0 3 = 35/100 ∧
    (15/100 ≤ eth_share_in_alts 0 3 ∧ eth_share_in_alts 0 3 ≠ 0) ∧
    ((compute_d_alt (some 2) 0 3).isSome ↔ (some (2:ℚ)).isSome) :=
  ⟨(C10_division_guarded (some 2) 0 3).1 (Or.inl rfl),
   (C10_division_guarded (some 2) 0 3).2.1,
   (C10_division_guarded (some 2) 0 3).2.2⟩

/-! ### Leader-selection lemmas for the inflow branch -/

lemma leaderOf_eq_BTC {b e s a : ℚ} (h1 : ¬e > b) (h2 : ¬a > b) (h3 : ¬s > b) :
    leaderOf b e s a = "BTC" := by
  simp [leaderOf, maxByVal, h1, h2, h3]

lemma leaderOf_eq_ETH {b e s a : ℚ} (h1 : e > b) (h2 : ¬a > e) (h3 : ¬s > e) :
    leaderOf b e s a = "ETH" := by
  simp [leaderOf, maxByVal, h1, h2, h3]

lemma leaderOf_eq_Alts {b e s a : ℚ} (h1 : a > b) (h2 : a > e) (h3 : ¬s > a) :
    leaderOf b e s a = "Alts" := by
  rcases lt_or_le b e with hbe | hbe
  · simp [leaderOf, maxByVal, hbe, h2, h3]
  · simp [leaderOf, maxByVal, not_lt.mpr hbe, h1, h3]

lemma leaderOf_eq_Stables {b e s a : ℚ} (h1 : s > b) (h2 : s > e) (h3 : s > a) :
    leaderOf b e s a = "Stables" := by
  rcases lt_or_le b e with hbe | hbe
  · rcases lt_or_le e a with hea | hea
    · simp [leaderOf, maxByVal, hbe, hea, h3]
    · simp [leaderOf, maxByVal, hbe, not_lt.mpr hea, h2]
  · rcases lt_or_le b a with hba | hba
    · simp [leaderOf, maxByVal, not_lt.mpr hbe, hba, h3]
    · simp [leaderOf, maxByVal, not_lt.mpr hbe, not_lt.mpr hba, h1]

/-- C3: for every DeltaSet with all five deltas non-null and
`d_total > tol`, `decide_flow` picks as leader the bucket with the
(strictly) largest delta; a Stables leader yields the qualified
mixed-signal inflow verdict, any other leader yields the Positive
"inflow concentrated in leader" verdict.  The claim's concrete scenario
(leader = Alts) is the witness below. -/
theorem C3_inflow_picks_leader (t b e s a : ℚ) (ht : t > tol) :
    (b > e ∧ b > s ∧ b > a →
      decide_flow (some t) (some b) (some e) (some s) (some a) = inflowLeaderVerdict "BTC") ∧
    (e > b ∧ e > s ∧ e > a →
      decide_flow (some t) (some b) (some e) (some s) (some a) = inflowLeaderVerdict "ETH") ∧
    (a > b ∧ a > e ∧ a > s →
      decide_flow (some t) (some b) (some e) (some s) (some a) = inflowLeaderVerdict "Alts") ∧
    (s > b ∧ s > e ∧ s > a →
      decide_flow (some t) (some b) (some e) (some s) (some a) = stablesInflowVerdict) := by
  have hd : decide_flow (some t) (some b) (some e) (some s) (some a) = inflowBranch b e s a := by
    simp [decide_flow, ht]
  refine ⟨fun ⟨h1, h2, h3⟩ => ?_, fun ⟨h1, h2, h3⟩ => ?_,
    fun ⟨h1, h2, h3⟩ => ?_, fun ⟨h1, h2, h3⟩ => ?_⟩ <;> rw [hd] <;> unfold inflowBranch
  · rw [leaderOf_eq_BTC (not_lt.mpr h1.le) (not_lt.mpr h3.le) (not_lt.mpr h2.le)]
    simp
  · rw [leaderOf_eq_ETH h1 (not_lt.mpr h3.le) (not_lt.mpr h2.le)]
    simp
  · rw [leaderOf_eq_Alts h1 h2 (not_lt.mpr h3.le)]
    simp
  · rw [leaderOf_eq_Stables h1 h2 h3]
    simp

theorem C3_inflow_picks_leader_w :
    decide_flow (some 50000000) (some 10000000) (some 5000000) (some 5000000)
      (some 30000000) = inflowLeaderVerdict "Alts" :=
  (C3_inflow_picks_leader 50000000 10000000 5000000 5000000 30000000
    (by norm_num [tol])).2.2.1 ⟨by norm_num, by norm_num, by norm_num⟩

/-- C7 counterexample: at `d_total` null, `d_btc = 5e6 = tol` (the boundary
case the claim includes), `d_eth = 6e6 > tol`, `d_alt = d_stable = 0`, the
hypotheses of the claim hold (`d_eth > tol`, `d_btc ≤ tol`, `d_alt ≤ tol`,
no earlier rotation rule matches) yet the classifier returns the neutral
verdict, not the ETH-rotation verdict: line 158 tests `d_btc < tol`
strictly. -/
theorem C7_boundary_counterexample :
    (6000000 : ℚ) > tol ∧ (5000000 : ℚ) ≤ tol ∧ (0 : ℚ) ≤ tol ∧
    decide_flow none (some 5000000) (some 6000000) (some 0) (some 0) = neutralVerdict ∧
    neutralVerdict ≠ ethRotationVerdict := by
  refine ⟨by norm_num [tol], by norm_num [tol], by norm_num [tol], ?_, by decide⟩
  norm_num [decide_flow, rotationRules, tol, neutralVerdict]

/-- C7 amended: with strict inequalities `d_btc < tol` and `d_alt < tol`
(as the source, line 158), every all-non-null DeltaSet that reaches the
rotation rules (`d_total` null or inside the tolerance band) with
`d_eth > tol` returns the "relative concentration in ETH" Rotation verdict;
strictness makes the two earlier rotation rules unsatisfiable, and at the
boundary `d_btc = tol` or `d_alt = tol` the rule does not fire. -/
theorem C7_eth_rotation_strict (d_total : Option ℚ) (b e s a : ℚ)
    (hdt : d_total = none ∨ ∃ t, d_total = some t ∧ ¬t > tol ∧ ¬t < -tol)
    (he : e > tol) (hb : b < tol) (ha : a < tol) :
    decide_flow d_total (some b) (some e) (some s) (some a) = ethRotationVerdict := by
  have h1 : ¬(b > tol ∧ a < -tol) := fun h => absurd h.1 (not_lt.mpr hb.le)
  have h2 : ¬(a > tol ∧ b < -tol) := fun h => absurd h.1 (not_lt.mpr ha.le)
  have hrot : rotationRules b e s a = ethRotationVerdict := by
    rw [rotationRules, if_neg h1, if_neg h2, if_pos ⟨he, hb, ha⟩]
  rcases hdt with rfl | ⟨t, rfl, ht1, ht2⟩
  · simpa [decide_flow] using hrot
  · simpa [decide_flow, ht1, ht2] using hrot

theorem C7_eth_rotation_strict_w :
    decide_flow none (some 0) (some 6000000) (some 0) (some 0) = ethRotationVerdict :=
  C7_eth_rotation_strict none 0 6000000 0 0 (Or.inl rfl) (by norm_num [tol])
    (by norm_num [tol]) (by norm_num [tol])

/-- C4 counterexample: with all four buckets present (`total = 100`,
`btc_dom = 50`, `eth_dom = 18`, `stable_now = 10`, exact arithmetic, no
rounding and no unclassified residual — the alt bucket is the residual by
construction) the four dominance figures are `50, 18, 10, 40`, whose sum is
118: off from 100 by exactly `eth_dom = 18`, not by a rounding ε.  Line 219
computes `alt_dom = 100 − btc_dom − stable_dom` without subtracting
`eth_dom`. -/
theorem C4_dom_sum_counterexample :
    analyze_doms 100 (some 50) (some 18) 10 = (50, 18, some 10, 40) ∧
    (50 : ℚ) + 18 + 10 + 40 = 118 ∧ (118 : ℚ) - 100 = 18 ∧ (118 : ℚ) ≠ 100 := by
  refine ⟨?_, by norm_num, by norm_num, by norm_num⟩
  norm_num [analyze_doms, Prod.ext_iff]

/-- C4 amended: for every snapshot with all four buckets present
(`total_now ≠ 0`, so the stable dominance is non-null), the BTC, stable and
alt dominance percentages sum to exactly 100, and the four-way sum
including ETH equals `100 + eth_dominance` — ETH is double-counted because
the alt residual of line 219 subtracts only BTC and stables. -/
theorem C4_dom_sum_amended (total_now : ℚ) (btc_dom_raw eth_dom_raw : Option ℚ)
    (stable_now : ℚ) (ht : total_now ≠ 0) :
    ((analyze_doms total_now btc_dom_raw eth_dom_raw stable_now).2.2.1).isSome ∧
    ∀ sd, (analyze_doms total_now btc_dom_raw eth_dom_raw stable_now).2.2.1 = some sd →
      (analyze_doms total_now btc_dom_raw eth_dom_raw stable_now).1 + sd +
        (analyze_doms total_now btc_dom_raw eth_dom_raw stable_now).2.2.2 = 100 ∧
      (analyze_doms total_now btc_dom_raw eth_dom_raw stable_now).1 +
        (analyze_doms total_now btc_dom_raw eth_dom_raw stable_now).2.1 + sd +
        (analyze_doms total_now btc_dom_raw eth_dom_raw stable_now).2.2.2 =
        100 + (analyze_doms total_now btc_dom_raw eth_dom_raw stable_now).2.1 := by
  refine ⟨by simp [analyze_doms, ht], ?_⟩
  intro sd hsd
  simp only [analyze_doms, if_pos ht, Option.some.injEq, Option.getD_some] at hsd ⊢
  subst hsd
  constructor <;> ring

theorem C4_dom_sum_amended_w :
    ((analyze_doms 100 (some 50) (some 18) 10).2.2.1).isSome ∧
    (analyze_doms 100 (some 50) (some 18) 10).1 + 10 +
      (analyze_doms 100 (some 50) (some 18) 10).2.2.2 = 100 ∧
    (analyze_doms 100 (some 50) (some 18) 10).1 +
      (analyze_doms 100 (some 50) (some 18) 10).2.1 + 10 +
      (analyze_doms 100 (some 50) (some 18) 10).2.2.2 =
      100 + (analyze_doms 100 (some 50) (some 18) 10).2.1 :=
  ⟨(C4_dom_sum_amended 100 (some 50) (some 18) 10 (by norm_num)).1,
   (C4_dom_sum_amended 100 (some 50) (some 18) 10 (by norm_num)).2 10
     (by norm_num [analyze_doms])⟩

/-- The basket loop computes the sum of the available members and flags
whether any member was available. -/
lemma stablePrevLoop_eq (hist : List (Option ℚ)) :
    ∀ acc flag, stablePrevLoop hist acc flag =
      (acc + (hist.filterMap id).sum, flag || hist.any Option.isSome) := by
  induction hist with
  | nil => intro acc flag; simp [stablePrevLoop]
  | cons hd tl ih =>
    intro acc flag
    cases hd with
    | none => simp [stablePrevLoop, ih]
    | some v =>
      simp only [stablePrevLoop, ih, List.any_cons, Option.isSome_some,
        Bool.true_or, Bool.or_true]
      refine Prod.ext ?_ rfl
      simp only [List.filterMap_cons, id_eq, List.sum_cons]
      ring

/-- C5 counterexample: a two-member stablecoin basket with the second
member's history Unavailable and the first available at 100, with current
basket cap 300, yields `d_stable = some 200` — a non-null delta computed
from the partial sum of the available member only, where the claim demands
null. -/
theorem C5_partial_basket_counterexample :
    (none : Option ℚ) ∈ [some (100 : ℚ), none] ∧
    compute_d_stable 300 [some (100 : ℚ), none] = some 200 ∧
    compute_d_stable 300 [some (100 : ℚ), none] ≠ none := by
  refine ⟨by simp, ?_, ?_⟩ <;>
    · norm_num [compute_d_stable, stable_prev, stablePrevLoop]
      try simp

/-- C5 amended: `d_stable` is null exactly when no basket member's history
is available or the current basket cap is zero (falsy); whenever at least
one member is available (even if others are Unavailable) and the current
cap is nonzero, the builder returns the partial sum — `d_stable =
stable_now − Σ (available members)`. -/
theorem C5_partial_basket_sum (stable_now : ℚ) (hist : List (Option ℚ)) :
    ((∃ pv ∈ hist, pv.isSome) → stable_prev hist = some ((hist.filterMap id).sum)) ∧
    ((∃ pv ∈ hist, pv.isSome) → stable_now ≠ 0 →
      compute_d_stable stable_now hist = some (stable_now - (hist.filterMap id).sum)) ∧
    ((∀ pv ∈ hist, pv = none) → compute_d_stable stable_now hist = none) := by
  have hany : (∃ pv ∈ hist, pv.isSome) → hist.any Option.isSome = true := by
    intro ⟨pv, hmem, hsome⟩
    exact List.any_eq_true.mpr ⟨pv, hmem, hsome⟩
  have hprev : (∃ pv ∈ hist, pv.isSome) →
      stable_prev hist = some ((hist.filterMap id).sum) := by
    intro h
    simp [stable_prev, stablePrevLoop_eq, hany h]
  refine ⟨hprev, fun h hnz => ?_, fun h => ?_⟩
  · simp [compute_d_stable, hprev h, hnz]
  · have : hist.any Option.isSome = false := by
      simp only [List.any_eq_false]
      intro pv hmem
      simp [h pv hmem]
    simp [compute_d_stable, stable_prev, stablePrevLoop_eq, this]

theorem C5_partial_basket_sum_w :
    compute_d_stable 300 [some (100 : ℚ), none] =
      some (300 - (([some (100 : ℚ), none]).filterMap id).sum) ∧
    compute_d_stable 300 [(none : Option ℚ), none] = none :=
  ⟨(C5_partial_basket_sum 300 [some (100 : ℚ), none]).2.1
      ⟨some 100, by simp, by simp⟩ (by norm_num),
   (C5_partial_basket_sum 300 [(none : Option ℚ), none]).2.2
      (by intro pv hmem; simpa using hmem)⟩

/-- Accumulator elimination for the back-scan: scanning with accumulator
`acc` gives the scan-from-`none` result when that is a hit, else `acc`. -/
lemma histScan_acc (target : ℤ) (l : List (ℤ × ℚ)) (acc : Option (ℤ × ℚ)) :
    histScan target l acc =
      match histScan target l none with
      | some p => some p
      | none => acc := by
  induction l generalizing acc with
  | nil => simp [histScan]
  | cons hd tl ih =>
    obtain ⟨ts, v⟩ := hd
    by_cases h : ts ≤ target
    · simp only [histScan, if_pos h]
      rw [ih (some (ts, v))]
      cases histScan target tl none <;> simp
    · simp only [histScan, if_neg h]

lemma get_history_eq_scan (caps : List (ℤ × ℚ)) (target : ℤ) :
    get_market_caps_history caps target = histScan target caps none := by
  cases caps <;> rfl

/-- C6: over a time-ordered (timestamp-ascending) sample series,
`get_market_caps_history` returns `none` exactly when no sample's
timestamp is at or before the cutoff (in particular on the empty series),
and otherwise returns a sample of the series whose timestamp is at or
before the cutoff and is the greatest such — so a cutoff falling strictly
between two consecutive samples yields the earlier one, never the later. -/
theorem C6_history_last_at_or_before (caps : List (ℤ × ℚ)) (target : ℤ)
    (hsort : caps.Pairwise (fun p q => p.1 ≤ q.1)) :
    (get_market_caps_history caps target = none ↔ ∀ p ∈ caps, target < p.1) ∧
    (∀ p, get_market_caps_history caps target = some p →
      p ∈ caps ∧ p.1 ≤ target ∧ ∀ q ∈ caps, q.1 ≤ target → q.1 ≤ p.1) := by
  revert hsort
  induction caps with
  | nil =>
    intro _
    simp [get_market_caps_history]
  | cons hd tl ih =>
    intro hsort
    obtain ⟨ts, v⟩ := hd
    obtain ⟨hhd, htl⟩ := List.pairwise_cons.mp hsort
    obtain ⟨ih1, ih2⟩ := ih htl
    by_cases h : ts ≤ target
    · have hres : get_market_caps_history ((ts, v) :: tl) target =
          match histScan target tl none with
          | some p => some p
          | none => some (ts, v) := by
        rw [get_history_eq_scan]
        simp only [histScan, if_pos h]
        rw [histScan_acc]
      cases htl_res : histScan target tl none with
      | some p =>
        have hres' : get_market_caps_history ((ts, v) :: tl) target = some p := by
          rw [hres, htl_res]
        obtain ⟨hmem, hle, hmax⟩ :=
          ih2 p (by rw [get_history_eq_scan]; exact htl_res)
        refine ⟨?_, ?_⟩
        · rw [hres']
          constructor
          · intro hc
            simp at hc
          · intro hall
            exact absurd (hall p (List.mem_cons_of_mem _ hmem)) (not_lt.mpr hle)
        · intro q hq
          rw [hres'] at hq
          injection hq with hq'
          subst hq'
          refine ⟨List.mem_cons_of_mem _ hmem, hle, ?_⟩
          intro r hr hrle
          rcases List.mem_cons.mp hr with rfl | hr'
          · exact hhd _ hmem
          · exact hmax r hr' hrle
      | none =>
        have hres' : get_market_caps_history ((ts, v) :: tl) target = some (ts, v) := by
          rw [hres, htl_res]
        have hall_tl : ∀ q ∈ tl, target < q.1 :=
          ih1.mp (by rw [get_history_eq_scan]; exact htl_res)
        refine ⟨?_, ?_⟩
        · rw [hres']
          constructor
          · intro hc
            simp at hc
          · intro hall
            exact absurd h (not_le.mpr (hall (ts, v) (List.mem_cons_self _ _)))
        · intro q hq
          rw [hres'] at hq
          injection hq with hq'
          subst hq'
          refine ⟨List.mem_cons_self _ _, h, ?_⟩
          intro r hr hrle
          rcases List.mem_cons.mp hr with rfl | hr'
          · exact le_refl _
          · exact absurd hrle (not_le.mpr (hall_tl r hr'))
    · have hres : get_market_caps_history ((ts, v) :: tl) target = none := by
        rw [get_history_eq_scan]
        simp only [histScan, if_neg h]
      refine ⟨?_, ?_⟩
      · rw [hres]
        constructor
        · intro _ p hp
          rcases List.mem_cons.mp hp with rfl | hp'
          · exact lt_of_not_le h
          · exact lt_of_lt_of_le (lt_of_not_le h) (hhd p hp')
        · intro _
          rfl
      · intro p hp
        rw [hres] at hp
        exact absurd hp (by simp)

theorem C6_history_last_at_or_before_w :
    ((0 : ℤ), (5 : ℚ)) ∈ [((0 : ℤ), (5 : ℚ)), (60000, 7)] ∧
    (0 : ℤ) ≤ 30000 ∧
    (∀ q ∈ [((0 : ℤ), (5 : ℚ)), (60000, 7)], q.1 ≤ 30000 → q.1 ≤ (0 : ℤ)) :=
  (C6_history_last_at_or_before [((0 : ℤ), (5 : ℚ)), (60000, 7)] 30000
    (by norm_num [List.pairwise_cons])).2 ((0 : ℤ), (5 : ℚ)) (by rfl)

end CryptoLiquidity
